import Mathlib

/-!
Shallow embedding of `src/builtout/dictb.py`: the class `dictb(dict)`, a
polymorphic key-value container ("PolyMap") that dispatches its subscript
operators (`__getitem__`, `__setitem__`, `__delitem__`) and its set-algebra
operators (`__sub__`, `__and__`, `__or__`, `__xor__` and their reflected
forms) on the *shape* of the argument: hashable scalar, ordered sequence,
unordered set, generic iterable, or none of these.

The value universe is restricted to hashable Python scalars (integers,
strings, `None`, and one level of tuples); these are the keys and the stored
values.  Argument shapes are a closed inductive `Arg` covering each isinstance
category the source tests: a scalar (hashable; strings and tuples are also
`collections.Sequence`), a list (a non-hashable `Sequence`), a set (a
non-hashable `collections.Set`), a dict (a non-hashable `Mapping`, iterable
over its keys, neither `Sequence` nor `Set`), and a non-hashable non-iterable
object.  The dict itself is an association list with first-match lookup; the
embedding is pure, so every mutating method returns the new dict (or an
error), and Python exceptions are the `Except` error channel: `KeyError`
(which carries the offending key, as `raise KeyError(key)` does) and
`TypeError` (what `set(key)` raises on a non-iterable argument).
-/

/-- Basic hashable Python atoms: integers, strings, `None`. -/
inductive Atom where
  | int : Int → Atom
  | str : String → Atom
  | anone : Atom
deriving DecidableEq, Repr

/-- Hashable Python scalars: atoms, plus tuples of atoms (tuples are hashable
and are also `collections.Sequence`s, like strings). -/
inductive Scalar where
  | atom : Atom → Scalar
  | tup : List Atom → Scalar
deriving DecidableEq, Repr

/-- Python `None`, the implicit "no value" sentinel of `__or__`/`__xor__`. -/
def pyNone : Scalar := Scalar.atom Atom.anone

/-- Iterating a Python string yields its characters, each a 1-character
string. -/
def strChars (s : String) : List Scalar :=
  s.data.map (fun c => Scalar.atom (Atom.str (String.mk [c])))

/-- Is this scalar a `collections.Sequence`?  Strings and tuples are; integers
and `None` are not. -/
def Scalar.isSeq : Scalar → Bool
  | Scalar.atom (Atom.str _) => true
  | Scalar.tup _ => true
  | _ => false

/-- The elements obtained by iterating a scalar that is a sequence (characters
of a string, members of a tuple); `[]` for non-sequences. -/
def Scalar.seqElems : Scalar → List Scalar
  | Scalar.atom (Atom.str s) => strChars s
  | Scalar.tup l => l.map Scalar.atom
  | _ => []

/-- The shapes of arguments the source's isinstance dispatch distinguishes. -/
inductive Arg where
  | scalar : Scalar → Arg
  | pylist : List Scalar → Arg
  | pyset : List Scalar → Arg
  | pydict : List (Scalar × Scalar) → Arg
  | obj : Arg
deriving DecidableEq, Repr

/-- `isinstance(key, collections.Hashable)`: exactly the scalars. -/
def Arg.isHashable : Arg → Bool
  | Arg.scalar _ => true
  | _ => false

/-- `isinstance(key, collections.Sequence)`: lists, and the scalar sequences
(strings, tuples). -/
def Arg.isSequence : Arg → Bool
  | Arg.scalar s => s.isSeq
  | Arg.pylist _ => true
  | _ => false

/-- `isinstance(key, collections.Set)`: only sets. -/
def Arg.isSet : Arg → Bool
  | Arg.pyset _ => true
  | _ => false

/-- `isinstance(other, collections.Mapping)`: only dicts. -/
def Arg.isMapping : Arg → Bool
  | Arg.pydict _ => true
  | _ => false

/-- The elements produced by iterating an argument, in iteration order:
characters of a string, members of a tuple or list, the distinct members of a
set, the distinct keys of a dict; `none` when the argument is not iterable
(integers, `None`, and the plain object). -/
def Arg.elems? : Arg → Option (List Scalar)
  | Arg.scalar s => if s.isSeq then some s.seqElems else none
  | Arg.pylist xs => some xs
  | Arg.pyset xs => some xs.dedup
  | Arg.pydict ps => some (ps.map Prod.fst).dedup
  | Arg.obj => none

/-- `isinstance(key, collections.Iterable)` (`Iterator` adds nothing): the
argument can be iterated. -/
def Arg.isIterable (a : Arg) : Bool := a.elems?.isSome

/-- Python `set(a)`: the distinct elements of an iterable, `TypeError`
otherwise.  Modelled as the deduplicated element list. -/
def setList (a : Arg) : Option (List Scalar) := a.elems?.map List.dedup

/-- The key set `set(a)` denotes, as a `Finset` (empty for non-iterables;
only used in specifications, under an iterability hypothesis). -/
def setOfArg (a : Arg) : Finset Scalar := (setList a).getD [] |>.toFinset

/-- The exceptions the source can raise: `KeyError(key)` (carrying the
offending key) and `TypeError` (from `set(...)` on a non-iterable). -/
inductive PyErr where
  | keyError : Arg → PyErr
  | typeError : PyErr
deriving DecidableEq, Repr

/-- Is this exception a `KeyError` (the "KeyNotFound" kind)? -/
def PyErr.isKeyError : PyErr → Bool
  | PyErr.keyError _ => true
  | PyErr.typeError => false

/-- The underlying dict: an association list from scalar keys to scalar
values, first match wins on lookup. -/
abbrev Dictb := List (Scalar × Scalar)

/-- `dict.__getitem__` restricted to presence: the stored value, if any. -/
def dlookup : Dictb → Scalar → Option Scalar
  | [], _ => none
  | p :: t, k => if p.1 = k then some p.2 else dlookup t k

/-- `k in d`: key membership. -/
def containsKey (d : Dictb) (k : Scalar) : Bool := (dlookup d k).isSome

/-- The keys of the dict, in entry order (`self._viewkeys` as a list). -/
def keysList (d : Dictb) : List Scalar := d.map Prod.fst

/-- The live key view `self._viewkeys`, as a finite set. -/
def keyFinset (d : Dictb) : Finset Scalar := (keysList d).toFinset

/-- Total lookup with the `None` default; coincides with `d[k]` whenever `k`
is a key. -/
def dGet (d : Dictb) (k : Scalar) : Scalar := (dlookup d k).getD pyNone

/-- `del d[k]` on the underlying dict: drop the binding of `k`. -/
def derase (d : Dictb) (k : Scalar) : Dictb :=
  d.filter (fun p => decide (¬ p.1 = k))

/-- `dict.__setitem__`: bind `k` to `v`, replacing any previous binding. -/
def dset (d : Dictb) (k v : Scalar) : Dictb := (k, v) :: derase d k

/-- `self.update(pairs)`: repeated scalar assignment, later pairs winning. -/
def updMany (d : Dictb) (ps : List (Scalar × Scalar)) : Dictb :=
  ps.foldl (fun acc p => dset acc p.1 p.2) d

/-- Delete every key of the list in turn (`for k in keyset: del self[k]`). -/
def delMany (d : Dictb) (ks : List Scalar) : Dictb := ks.foldl derase d

/-- `set(key).issubset(self._viewkeys)`. -/
def issubset (ks : List Scalar) (d : Dictb) : Bool :=
  ks.all (fun k => containsKey d k)

/-- The three result forms of `dictb.__getitem__`: a single value, the
(materialised) value generator of the sequence case, and the sub-dict of the
set case. -/
inductive GetResult where
  | val : Scalar → GetResult
  | gen : List Scalar → GetResult
  | sub : Dictb → GetResult
deriving DecidableEq, Repr

/-- `dictb.__getitem__` (dictb.py lines 14-41), case by argument shape:
hashable -> `dict.__getitem__`; otherwise `set(key)` is formed (`TypeError`
when `key` is not iterable), and under `set(key).issubset(self._viewkeys)` a
`Sequence` yields the generator `(self[k] for k in key)` and a `Set` yields
`dictb((k, self[k]) for k in key)`; every remaining path reaches
`raise KeyError(key)` (a dict argument falls through both isinstance tests
whether or not the subset check passed). -/
def getItem (d : Dictb) (key : Arg) : Except PyErr GetResult :=
  match key with
  | Arg.scalar k =>
      match dlookup d k with
      | some v => Except.ok (GetResult.val v)
      | none => Except.error (PyErr.keyError (Arg.scalar k))
  | Arg.pylist xs =>
      if issubset xs d then
        Except.ok (GetResult.gen (xs.filterMap (dlookup d)))
      else Except.error (PyErr.keyError (Arg.pylist xs))
  | Arg.pyset xs =>
      if issubset xs.dedup d then
        Except.ok (GetResult.sub (xs.dedup.map (fun k => (k, dGet d k))))
      else Except.error (PyErr.keyError (Arg.pyset xs))
  | Arg.pydict ps => Except.error (PyErr.keyError (Arg.pydict ps))
  | Arg.obj => Except.error PyErr.typeError

/-- `dictb.__setitem__` (dictb.py lines 43-73): hashable key ->
`dict.__setitem__`; `Sequence` key with `Sequence` value ->
`self.update({k: v for k, v in zip(key, value)})`; any other iterable key ->
`self.update({k: value for k in key})`; otherwise `raise KeyError(key)`. -/
def setItem (d : Dictb) (key : Arg) (value : Scalar) : Except PyErr Dictb :=
  match key with
  | Arg.scalar k => Except.ok (dset d k value)
  | Arg.pylist xs =>
      if value.isSeq then
        Except.ok (updMany d (xs.zip value.seqElems))
      else
        Except.ok (updMany d (xs.map (fun k => (k, value))))
  | Arg.pyset xs =>
      Except.ok (updMany d (xs.dedup.map (fun k => (k, value))))
  | Arg.pydict ps =>
      Except.ok (updMany d ((ps.map Prod.fst).dedup.map (fun k => (k, value))))
  | Arg.obj => Except.error (PyErr.keyError Arg.obj)

/-- `dictb.__delitem__` (dictb.py lines 75-99): hashable key ->
`dict.__delitem__` (strict); otherwise `keyset = set(key)` (`TypeError` when
not iterable), and if `keyset.issubset(self._viewkeys)` every member is
deleted, else `raise KeyError(key)` with no deletion performed. -/
def delItem (d : Dictb) (key : Arg) : Except PyErr Dictb :=
  match key with
  | Arg.scalar k =>
      match dlookup d k with
      | some _ => Except.ok (derase d k)
      | none => Except.error (PyErr.keyError (Arg.scalar k))
  | _ =>
      match setList key with
      | none => Except.error PyErr.typeError
      | some ks =>
          if issubset ks d then Except.ok (delMany d ks)
          else Except.error (PyErr.keyError key)

/-- Value resolution for `__or__`/`__xor__` (dictb.py lines 140-147 and
167-174): `self[k] if k in self else other[k] if isinstance(other, Mapping)
else None`. -/
def resolve (d : Dictb) (other : Arg) (k : Scalar) : Scalar :=
  match dlookup d k with
  | some v => v
  | none =>
      match other with
      | Arg.pydict ps => dGet ps k
      | _ => pyNone

/-- `dictb.__sub__` (lines 103-112): a new dictb over
`self._viewkeys - set(other)`, keeping self's values. -/
def subOp (d : Dictb) (other : Arg) : Except PyErr Dictb :=
  match setList other with
  | none => Except.error PyErr.typeError
  | some os =>
      Except.ok
        (((keysList d).filter (fun k => decide (¬ k ∈ os))).dedup.map
          (fun k => (k, dGet d k)))

/-- `dictb.__and__` (lines 114-123): a new dictb over
`self._viewkeys & set(other)`, keeping self's values. -/
def andOp (d : Dictb) (other : Arg) : Except PyErr Dictb :=
  match setList other with
  | none => Except.error PyErr.typeError
  | some os =>
      Except.ok
        (((keysList d).filter (fun k => decide (k ∈ os))).dedup.map
          (fun k => (k, dGet d k)))

/-- `dictb.__or__` (lines 132-150): a new dictb over
`self._viewkeys | set(other)`, values resolved by `resolve`. -/
def orOp (d : Dictb) (other : Arg) : Except PyErr Dictb :=
  match setList other with
  | none => Except.error PyErr.typeError
  | some os =>
      Except.ok ((keysList d ++ os).dedup.map (fun k => (k, resolve d other k)))

/-- `dictb.__xor__` (lines 159-177): a new dictb over
`self._viewkeys ^ set(other)`, values resolved by `resolve`. -/
def xorOp (d : Dictb) (other : Arg) : Except PyErr Dictb :=
  match setList other with
  | none => Except.error PyErr.typeError
  | some os =>
      Except.ok
        (((keysList d).filter (fun k => decide (¬ k ∈ os)) ++
          os.filter (fun k => decide (¬ containsKey d k))).dedup.map
          (fun k => (k, resolve d other k)))

/-- `dictb.__rand__` (lines 125-130): `set(other) & self._viewkeys`, a plain
key set, not a dictb. -/
def randOp (d : Dictb) (other : Arg) : Except PyErr (Finset Scalar) :=
  match setList other with
  | none => Except.error PyErr.typeError
  | some os => Except.ok (os.toFinset ∩ keyFinset d)

/-- `dictb.__ror__` (lines 152-157): `set(other) | self._viewkeys`, a plain
key set, not a dictb. -/
def rorOp (d : Dictb) (other : Arg) : Except PyErr (Finset Scalar) :=
  match setList other with
  | none => Except.error PyErr.typeError
  | some os => Except.ok (os.toFinset ∪ keyFinset d)

/-- `dictb.__rxor__` (lines 179-184): `set(other) ^ self._viewkeys`, a plain
key set, not a dictb. -/
def rxorOp (d : Dictb) (other : Arg) : Except PyErr (Finset Scalar) :=
  match setList other with
  | none => Except.error PyErr.typeError
  | some os =>
      Except.ok ((os.toFinset \ keyFinset d) ∪ (keyFinset d \ os.toFinset))

/-- The four shapes of the spec's closed classification. -/
inductive Shape where
  | scalarS : Shape
  | seqS : Shape
  | setLikeS : Shape
  | invalidS : Shape
deriving DecidableEq, Repr

/-- The classification order shared by the three subscript methods: scalar-ness
(hashability) is tested first, then sequence-ness, then generic
iterable-ness. -/
def classify (a : Arg) : Shape :=
  if a.isHashable then Shape.scalarS
  else if a.isSequence then Shape.seqS
  else if a.isIterable then Shape.setLikeS
  else Shape.invalidS

/-- The value at `k` when `other` stands on the mapping side (`other[k]`);
the sentinel for non-mappings. -/
def mapGet (a : Arg) (k : Scalar) : Scalar :=
  match a with
  | Arg.pydict ps => dGet ps k
  | _ => pyNone

lemma dlookup_derase_self (d : Dictb) (k : Scalar) :
    dlookup (derase d k) k = none := by
  induction d with
  | nil => rfl
  | cons p t ih =>
      by_cases h : p.1 = k
      · simpa [derase, List.filter_cons, h, dlookup] using ih
      · simpa [derase, List.filter_cons, h, dlookup] using ih

lemma dlookup_derase_ne (d : Dictb) (k k' : Scalar) (h : k' ≠ k) :
    dlookup (derase d k) k' = dlookup d k' := by
  induction d with
  | nil => rfl
  | cons p t ih =>
      by_cases h1 : p.1 = k
      · subst h1
        have h2 : ¬ p.1 = k' := fun he => h he.symm
        simpa [derase, List.filter_cons, dlookup, h2] using ih
      · by_cases h2 : p.1 = k'
        · simp [derase, List.filter_cons, dlookup, h1, h2, h]
        · simpa [derase, List.filter_cons, dlookup, h1, h2] using ih

lemma dlookup_dset_self (d : Dictb) (k v : Scalar) :
    dlookup (dset d k v) k = some v := by
  simp [dset, dlookup]

lemma dlookup_dset_ne (d : Dictb) (k v k' : Scalar) (h : k' ≠ k) :
    dlookup (dset d k v) k' = dlookup d k' := by
  simp [dset, dlookup, Ne.symm h, dlookup_derase_ne d k k' h]

lemma dlookup_isSome_iff_mem (d : Dictb) (k : Scalar) :
    (dlookup d k).isSome = true ↔ k ∈ keyFinset d := by
  induction d with
  | nil => simp [dlookup, keyFinset, keysList]
  | cons p t ih =>
      by_cases h : p.1 = k
      · subst h
        simp [dlookup, keyFinset, keysList, List.toFinset_cons]
      · have hne : ¬ k = p.1 := fun he => h he.symm
        rw [show dlookup (p :: t) k = dlookup t k from by simp [dlookup, h], ih]
        simp only [keyFinset, keysList, List.map_cons, List.toFinset_cons,
          Finset.mem_insert, hne, false_or]

lemma containsKey_iff_mem (d : Dictb) (k : Scalar) :
    containsKey d k = true ↔ k ∈ keyFinset d := by
  simp [containsKey, dlookup_isSome_iff_mem]

lemma dlookup_eq_some_dGet (d : Dictb) (k : Scalar)
    (h : (dlookup d k).isSome = true) : dlookup d k = some (dGet d k) := by
  cases hx : dlookup d k with
  | none => rw [hx] at h; simp at h
  | some v => simp [dGet, hx]

lemma issubset_iff (ks : List Scalar) (d : Dictb) :
    issubset ks d = true ↔ ∀ k ∈ ks, k ∈ keyFinset d := by
  simp [issubset, List.all_eq_true, containsKey_iff_mem]

lemma filterMap_dlookup_eq_map (d : Dictb) (xs : List Scalar)
    (h : ∀ k ∈ xs, (dlookup d k).isSome = true) :
    xs.filterMap (dlookup d) = xs.map (dGet d) := by
  induction xs with
  | nil => rfl
  | cons a t ih =>
      have ha := dlookup_eq_some_dGet d a (h a (List.mem_cons_self a t))
      simp [List.filterMap_cons, ha]
      exact ih (fun k hk => h k (List.mem_cons_of_mem a hk))

lemma updMany_cons (d : Dictb) (p : Scalar × Scalar) (t : List (Scalar × Scalar)) :
    updMany d (p :: t) = updMany (dset d p.1 p.2) t := rfl

lemma dlookup_updMany_notMem (d : Dictb) (ps : List (Scalar × Scalar))
    (k : Scalar) (h : k ∉ ps.map Prod.fst) :
    dlookup (updMany d ps) k = dlookup d k := by
  induction ps generalizing d with
  | nil => rfl
  | cons p t ih =>
      simp only [List.map_cons, List.mem_cons] at h
      push_neg at h
      rw [updMany_cons, ih (dset d p.1 p.2) h.2,
        dlookup_dset_ne d p.1 p.2 k h.1]

lemma dlookup_updMany_zip (d : Dictb) (ks vs : List Scalar) :
    ks.Nodup → ∀ i (h1 : i < ks.length) (h2 : i < vs.length),
      dlookup (updMany d (ks.zip vs)) (ks.get ⟨i, h1⟩) = some (vs.get ⟨i, h2⟩) := by
  induction ks generalizing d vs with
  | nil => intro _ i h1 _; exact absurd h1 (by simp)
  | cons a kt ih =>
      intro hnd i h1 h2
      cases vs with
      | nil => exact absurd h2 (by simp)
      | cons b vt =>
          have hna : a ∉ kt := (List.nodup_cons.mp hnd).1
          cases i with
          | zero =>
              have ha : a ∉ (kt.zip vt).map Prod.fst := by
                intro hmem
                obtain ⟨p, hp, hfst⟩ := List.mem_map.mp hmem
                obtain ⟨p1, p2⟩ := p
                cases hfst
                exact hna (List.of_mem_zip hp).1
              show dlookup (updMany (dset d a b) (kt.zip vt)) a = some b
              rw [dlookup_updMany_notMem _ _ _ ha, dlookup_dset_self]
          | succ j =>
              exact ih (dset d a b) vt (List.nodup_cons.mp hnd).2 j
                (Nat.lt_of_succ_lt_succ h1) (Nat.lt_of_succ_lt_succ h2)

lemma dlookup_updMany_zip_beyond (d : Dictb) (ks vs : List Scalar) :
    ks.Nodup → ∀ i (h1 : i < ks.length), vs.length ≤ i →
      dlookup (updMany d (ks.zip vs)) (ks.get ⟨i, h1⟩) =
        dlookup d (ks.get ⟨i, h1⟩) := by
  induction ks generalizing d vs with
  | nil => intro _ i h1 _; exact absurd h1 (by simp)
  | cons a kt ih =>
      intro hnd i h1 hbeyond
      cases vs with
      | nil => rfl
      | cons b vt =>
          have hna : a ∉ kt := (List.nodup_cons.mp hnd).1
          cases i with
          | zero => exact absurd hbeyond (by simp)
          | succ j =>
              have hj : j < kt.length := Nat.lt_of_succ_lt_succ h1
              have hkmem : kt.get ⟨j, hj⟩ ∈ kt := List.get_mem kt j hj
              have hkne : kt.get ⟨j, hj⟩ ≠ a := fun he => hna (he ▸ hkmem)
              show dlookup (updMany (dset d a b) (kt.zip vt)) (kt.get ⟨j, hj⟩) =
                dlookup d (kt.get ⟨j, hj⟩)
              rw [ih (dset d a b) vt (List.nodup_cons.mp hnd).2 j hj
                  (Nat.le_of_succ_le_succ hbeyond),
                dlookup_dset_ne d a b _ hkne]

lemma dlookup_mapPairs (l : List Scalar) (f : Scalar → Scalar) (k : Scalar)
    (hk : k ∈ l) :
    dlookup (l.map (fun x => (x, f x))) k = some (f k) := by
  induction l with
  | nil => exact absurd hk (by simp)
  | cons a t ih =>
      by_cases h : a = k
      · subst h; simp [dlookup]
      · have : k ∈ t := by
          rcases List.mem_cons.mp hk with h' | h'
          · exact absurd h'.symm h
          · exact h'
        simp [dlookup, h, ih this]

lemma keysList_mapPairs (l : List Scalar) (f : Scalar → Scalar) :
    keysList (l.map (fun x => (x, f x))) = l := by
  simp [keysList, List.map_map, Function.comp_def]

lemma keyFinset_derase (d : Dictb) (k : Scalar) :
    keyFinset (derase d k) = keyFinset d \ {k} := by
  ext x
  simp only [keyFinset, keysList, derase, List.mem_toFinset, List.mem_map,
    List.mem_filter, decide_eq_true_eq, Finset.mem_sdiff, Finset.mem_singleton]
  constructor
  · rintro ⟨p, ⟨hp, hne⟩, hfst⟩
    exact ⟨⟨p, hp, hfst⟩, fun he => hne (hfst.trans he)⟩
  · rintro ⟨⟨p, hp, hfst⟩, hne⟩
    exact ⟨p, ⟨hp, fun he => hne (hfst ▸ he)⟩, hfst⟩

lemma keyFinset_delMany (d : Dictb) (ks : List Scalar) :
    keyFinset (delMany d ks) = keyFinset d \ ks.toFinset := by
  induction ks generalizing d with
  | nil => simp [delMany]
  | cons a t ih =>
      show keyFinset (delMany (derase d a) t) = _
      rw [ih (derase d a), keyFinset_derase]
      ext x
      simp only [Finset.mem_sdiff, Finset.mem_singleton, List.toFinset_cons,
        Finset.mem_insert, List.mem_toFinset]
      tauto

lemma dlookup_delMany_notMem (d : Dictb) (ks : List Scalar) (k : Scalar)
    (h : k ∉ ks) :
    dlookup (delMany d ks) k = dlookup d k := by
  induction ks generalizing d with
  | nil => rfl
  | cons a t ih =>
      simp only [List.mem_cons] at h
      push_neg at h
      show dlookup (delMany (derase d a) t) k = _
      rw [ih (derase d a) h.2, dlookup_derase_ne d a k h.1]

lemma setList_of_isIterable (a : Arg) (h : a.isIterable = true) :
    ∃ os, setList a = some os ∧ os.toFinset = setOfArg a ∧ os.Nodup := by
  obtain ⟨l, hl⟩ := Option.isSome_iff_exists.mp h
  exact ⟨l.dedup, by simp [setList, hl], by simp [setOfArg, setList, hl],
    l.nodup_dedup⟩

lemma resolve_spec (d : Dictb) (other : Arg) (k : Scalar) :
    resolve d other k =
      if containsKey d k then dGet d k
      else if other.isMapping then mapGet other k else pyNone := by
  cases hx : dlookup d k with
  | some v => simp [resolve, hx, containsKey, dGet]
  | none =>
      cases other <;> simp [resolve, hx, containsKey, dGet, Arg.isMapping, mapGet]

lemma toFinset_dedup_list (l : List Scalar) : l.dedup.toFinset = l.toFinset := by
  ext x
  simp [List.mem_dedup]

lemma mem_keysList (d : Dictb) (k : Scalar) :
    k ∈ keysList d ↔ k ∈ keyFinset d := by
  simp [keyFinset]

/-- The key `'a'` of the running doctest example. -/
def sA : Scalar := Scalar.atom (Atom.str "a")

/-- The key `'b'` of the running doctest example. -/
def sB : Scalar := Scalar.atom (Atom.str "b")

/-- The key `'c'` of the running doctest example. -/
def sC : Scalar := Scalar.atom (Atom.str "c")

/-- The key `'d'` of the running doctest example. -/
def sD : Scalar := Scalar.atom (Atom.str "d")

/-- The doctest dict `dictb(a=1, b=2, c=3)`. -/
def dEx : Dictb :=
  [(sA, Scalar.atom (Atom.int 1)), (sB, Scalar.atom (Atom.int 2)),
   (sC, Scalar.atom (Atom.int 3))]

/-- The doctest right operand `dictb(b=22, c=33, d=44)`. -/
def dOther : List (Scalar × Scalar) :=
  [(sB, Scalar.atom (Atom.int 22)), (sC, Scalar.atom (Atom.int 33)),
   (sD, Scalar.atom (Atom.int 44))]

/-- C1: for a sequence argument `ks` whose elements are all keys of `m`,
`m[ks]` produces the values of the elements of `ks`, in order, each equal to
the scalar `m[k]`; if some element is not a key, it fails with
`KeyError(ks)` — the whole input is referenced and, the subset test preceding
the generator, no partial result is built (the embedding is pure, so the
error case returns no output at all). -/
theorem getitem_sequence_spec (d : Dictb) (xs : List Scalar) :
    ((∀ k ∈ xs, k ∈ keyFinset d) →
       getItem d (Arg.pylist xs) = Except.ok (GetResult.gen (xs.map (dGet d))) ∧
       ∀ k ∈ xs, getItem d (Arg.scalar k) = Except.ok (GetResult.val (dGet d k))) ∧
    ((∃ k ∈ xs, k ∉ keyFinset d) →
       getItem d (Arg.pylist xs) = Except.error (PyErr.keyError (Arg.pylist xs))) := by
  constructor
  · intro h
    have hsub : issubset xs d = true := (issubset_iff xs d).mpr h
    have hmap := filterMap_dlookup_eq_map d xs
      (fun k hk => (dlookup_isSome_iff_mem d k).mpr (h k hk))
    constructor
    · simp [getItem, hsub, hmap]
    · intro k hk
      have hs := (dlookup_isSome_iff_mem d k).mpr (h k hk)
      simp [getItem, dlookup_eq_some_dGet d k hs]
  · rintro ⟨k, hk, hnk⟩
    have hf : issubset xs d = false := by
      apply Bool.eq_false_iff.mpr
      intro hco
      exact hnk ((issubset_iff xs d).mp hco k hk)
    simp [getItem, hf]

/-- C1 witness: on `dictb(a=1, b=2, c=3)`, getting `['a', 'c']` yields the
generator of the two scalar lookups. -/
theorem getitem_sequence_spec_witness :
    getItem dEx (Arg.pylist [sA, sC]) =
      Except.ok (GetResult.gen ([sA, sC].map (dGet dEx))) :=
  ((getitem_sequence_spec dEx [sA, sC]).1 (by decide)).1

/-- C2: for a set argument whose members are all keys of `m`, `m[S]` is a new
dictb whose key view is exactly `S` and whose value at each member agrees
with `m`; if `S` is not a subset of the key view it fails with `KeyError`. -/
theorem getitem_set_spec (d : Dictb) (xs : List Scalar) :
    (xs.toFinset ⊆ keyFinset d →
       ∃ r, getItem d (Arg.pyset xs) = Except.ok (GetResult.sub r) ∧
         keyFinset r = xs.toFinset ∧
         ∀ k ∈ xs.toFinset, dlookup r k = dlookup d k) ∧
    (¬ xs.toFinset ⊆ keyFinset d →
       getItem d (Arg.pyset xs) = Except.error (PyErr.keyError (Arg.pyset xs))) := by
  constructor
  · intro hsub
    have hsubl : issubset xs.dedup d = true := by
      rw [issubset_iff]
      intro k hk
      exact hsub (List.mem_toFinset.mpr (List.mem_dedup.mp hk))
    refine ⟨xs.dedup.map (fun k => (k, dGet d k)), by simp [getItem, hsubl], ?_, ?_⟩
    · rw [keyFinset, keysList_mapPairs, toFinset_dedup_list]
    · intro k hk
      have hkd : k ∈ xs.dedup := List.mem_dedup.mpr (List.mem_toFinset.mp hk)
      rw [dlookup_mapPairs _ _ _ hkd,
        dlookup_eq_some_dGet d k ((dlookup_isSome_iff_mem d k).mpr (hsub hk))]
  · intro hsub
    have hf : issubset xs.dedup d = false := by
      apply Bool.eq_false_iff.mpr
      intro hco
      exact hsub (fun k hk => (issubset_iff xs.dedup d).mp hco k
        (List.mem_dedup.mpr (List.mem_toFinset.mp hk)))
    simp [getItem, hf]

/-- C2 witness: on `dictb(a=1, b=2, c=3)`, getting the set of a and c returns
a sub-dictb with exactly those keys. -/
theorem getitem_set_spec_witness :
    ∃ r, getItem dEx (Arg.pyset [sA, sC]) = Except.ok (GetResult.sub r) ∧
      keyFinset r = [sA, sC].toFinset := by
  obtain ⟨r, h1, h2, _⟩ := (getitem_set_spec dEx [sA, sC]).1 (by decide)
  exact ⟨r, h1, h2⟩

/-- C3: for an iterable right operand (another mapping, or a plain iterable
of keys), `m | other` is a new dictb over the union of the key sets and
`m ^ other` over their symmetric difference, the value at each result key
being `m[k]` when `k` is a key of `m`, else `other[k]` when `other` is a
mapping, else the `None` sentinel; the embedding is pure, so neither operand
is mutated — both results are freshly built dicts. -/
theorem union_symmdiff_spec (d : Dictb) (other : Arg)
    (hit : other.isIterable = true) :
    ∃ ru rx, orOp d other = Except.ok ru ∧ xorOp d other = Except.ok rx ∧
      keyFinset ru = keyFinset d ∪ setOfArg other ∧
      keyFinset rx =
        (keyFinset d \ setOfArg other) ∪ (setOfArg other \ keyFinset d) ∧
      (∀ k ∈ keyFinset ru, dlookup ru k =
        some (if containsKey d k then dGet d k
              else if other.isMapping then mapGet other k else pyNone)) ∧
      (∀ k ∈ keyFinset rx, dlookup rx k =
        some (if containsKey d k then dGet d k
              else if other.isMapping then mapGet other k else pyNone)) := by
  obtain ⟨os, hos, hosf, hnd⟩ := setList_of_isIterable other hit
  refine ⟨(keysList d ++ os).dedup.map (fun k => (k, resolve d other k)),
    ((keysList d).filter (fun k => decide (¬ k ∈ os)) ++
      os.filter (fun k => decide (¬ containsKey d k))).dedup.map
      (fun k => (k, resolve d other k)), ?_, ?_, ?_, ?_, ?_, ?_⟩
  · simp [orOp, hos]
  · simp [xorOp, hos]
  · rw [keyFinset, keysList_mapPairs, toFinset_dedup_list,
      List.toFinset_append, hosf]
    rfl
  · rw [keyFinset, keysList_mapPairs, toFinset_dedup_list]
    ext x
    simp only [List.toFinset_append, Finset.mem_union, List.mem_toFinset,
      List.mem_filter, decide_eq_true_eq, Finset.mem_sdiff, ← hosf,
      mem_keysList, containsKey_iff_mem]
  · intro k hk
    rw [keyFinset, keysList_mapPairs] at hk
    rw [dlookup_mapPairs _ _ _ (List.mem_toFinset.mp hk), resolve_spec]
  · intro k hk
    rw [keyFinset, keysList_mapPairs] at hk
    rw [dlookup_mapPairs _ _ _ (List.mem_toFinset.mp hk), resolve_spec]

/-- C3 witness: union and symmetric difference of the doctest dicts
`dictb(a=1, b=2, c=3)` and `dictb(b=22, c=33, d=44)` both succeed. -/
theorem union_symmdiff_spec_witness :
    ∃ ru rx, orOp dEx (Arg.pydict dOther) = Except.ok ru ∧
      xorOp dEx (Arg.pydict dOther) = Except.ok rx := by
  obtain ⟨ru, rx, h1, h2, _⟩ := union_symmdiff_spec dEx (Arg.pydict dOther) rfl
  exact ⟨ru, rx, h1, h2⟩

/-- C4: deleting an iterable (non-scalar) key collection removes exactly the
distinct elements of the collection when they all are keys — the key view
afterwards is the old view minus the collection, values elsewhere untouched —
and fails with `KeyError` when some element is not a key; the subset check
precedes any mutation, and the embedding is pure, so the failure case
returns no modified dict at all. -/
theorem delitem_iterable_spec (d : Dictb) (key : Arg)
    (hnh : key.isHashable = false) (hit : key.isIterable = true) :
    (setOfArg key ⊆ keyFinset d →
       ∃ d2, delItem d key = Except.ok d2 ∧
         keyFinset d2 = keyFinset d \ setOfArg key ∧
         ∀ k, k ∉ setOfArg key → dlookup d2 k = dlookup d k) ∧
    (¬ setOfArg key ⊆ keyFinset d →
       delItem d key = Except.error (PyErr.keyError key)) := by
  obtain ⟨os, hos, hosf, hnd⟩ := setList_of_isIterable key hit
  have hdel : delItem d key =
      (if issubset os d then Except.ok (delMany d os)
       else Except.error (PyErr.keyError key)) := by
    cases key with
    | scalar s => simp [Arg.isHashable] at hnh
    | pylist xs => simp [delItem, hos]
    | pyset xs => simp [delItem, hos]
    | pydict ps => simp [delItem, hos]
    | obj => simp [setList, Arg.elems?] at hos
  constructor
  · intro hsub
    have hsubl : issubset os d = true := (issubset_iff os d).mpr
      (fun k hk => hsub (hosf ▸ List.mem_toFinset.mpr hk))
    refine ⟨delMany d os, by simp [hdel, hsubl], ?_, ?_⟩
    · rw [keyFinset_delMany, hosf]
    · intro k hk
      exact dlookup_delMany_notMem d os k
        (fun hm => hk (hosf ▸ List.mem_toFinset.mpr hm))
  · intro hsub
    have hf : issubset os d = false := by
      apply Bool.eq_false_iff.mpr
      intro hco
      refine hsub (fun k hk => ?_)
      rw [← hosf] at hk
      exact (issubset_iff os d).mp hco k (List.mem_toFinset.mp hk)
    simp [hdel, hf]

/-- C4 witness: `del m[['a', 'd']]` on `dictb(a=1, b=2, c=3)` fails with
`KeyError` because `'d'` is absent (and, the embedding being pure, leaves no
modified dict behind). -/
theorem delitem_iterable_spec_witness :
    delItem dEx (Arg.pylist [sA, sD]) =
      Except.error (PyErr.keyError (Arg.pylist [sA, sD])) :=
  (delitem_iterable_spec dEx (Arg.pylist [sA, sD]) rfl rfl).2 (by decide)

/-- C5 counterexample: with the duplicated key list `['a', 'a']` and values
`(1, 2)`, `m.set(ks, vs)` stores `2` at `'a'` (later zip pairs win), so the
subsequent `m.get(ks)` yields `(2, 2)`, not the original value sequence
`(1, 2)` — the claim fails for sequences with repeated keys. -/
theorem set_get_roundtrip_cx :
    ((setItem [] (Arg.pylist [Scalar.atom (Atom.str "a"),
        Scalar.atom (Atom.str "a")])
        (Scalar.tup [Atom.int 1, Atom.int 2])).bind
      (fun d2 => getItem d2 (Arg.pylist [Scalar.atom (Atom.str "a"),
        Scalar.atom (Atom.str "a")]))) =
      Except.ok (GetResult.gen [Scalar.atom (Atom.int 2),
        Scalar.atom (Atom.int 2)]) ∧
    GetResult.gen [Scalar.atom (Atom.int 2), Scalar.atom (Atom.int 2)] ≠
      GetResult.gen [Scalar.atom (Atom.int 1), Scalar.atom (Atom.int 2)] :=
  ⟨rfl, by decide⟩

/-- C5 as amended: for equal-length sequences `ks` and `vs` where the keys of
`ks` are pairwise distinct, `m.set(ks, vs)` followed by `m.get(ks)` yields
exactly the values `vs`, in order. -/
theorem set_get_roundtrip_nodup (d : Dictb) (ks : List Scalar)
    (vs : List Atom) (hnd : ks.Nodup) (hlen : ks.length = vs.length) :
    ∃ d2, setItem d (Arg.pylist ks) (Scalar.tup vs) = Except.ok d2 ∧
      getItem d2 (Arg.pylist ks) =
        Except.ok (GetResult.gen (vs.map Scalar.atom)) := by
  have hlen2 : ks.length = (vs.map Scalar.atom).length := by simp [hlen]
  refine ⟨updMany d (ks.zip (vs.map Scalar.atom)), rfl, ?_⟩
  have hkey : ∀ k ∈ ks,
      (dlookup (updMany d (ks.zip (vs.map Scalar.atom))) k).isSome = true := by
    intro k hk
    obtain ⟨⟨i, hi⟩, hgi⟩ := List.mem_iff_get.mp hk
    have h2 : i < (vs.map Scalar.atom).length := hlen2 ▸ hi
    rw [← hgi, dlookup_updMany_zip d ks (vs.map Scalar.atom) hnd i hi h2]
    rfl
  have hsub : issubset ks (updMany d (ks.zip (vs.map Scalar.atom))) = true := by
    rw [issubset_iff]
    exact fun k hk => (dlookup_isSome_iff_mem _ k).mp (hkey k hk)
  have hmap := filterMap_dlookup_eq_map _ ks hkey
  have hvals : ks.map (dGet (updMany d (ks.zip (vs.map Scalar.atom)))) =
      vs.map Scalar.atom := by
    apply List.ext_get (by simp [← hlen2])
    intro n hn1 hn2
    have hn : n < ks.length := by simpa using hn1
    have hnw : n < (vs.map Scalar.atom).length := hlen2 ▸ hn
    have hl := dlookup_updMany_zip d ks (vs.map Scalar.atom) hnd n hn hnw
    simp only [List.get_map, dGet, hl, Option.getD_some]
  simp [getItem, hsub, hmap, hvals]

/-- C5 amended witness: on `dictb(a=1, b=2, c=3)`, setting `['a', 'c']` to
`(11, 33)` and getting `['a', 'c']` back yields `(11, 33)`. -/
theorem set_get_roundtrip_nodup_witness :
    ∃ d2, setItem dEx (Arg.pylist [sA, sC])
        (Scalar.tup [Atom.int 11, Atom.int 33]) = Except.ok d2 ∧
      getItem d2 (Arg.pylist [sA, sC]) =
        Except.ok (GetResult.gen
          ([Atom.int 11, Atom.int 33].map Scalar.atom)) :=
  set_get_roundtrip_nodup dEx [sA, sC] [Atom.int 11, Atom.int 33]
    (by decide) rfl

/-- C6: every subscript method tests hashability first, so a hashable
argument — even one that is also an ordered sequence, such as a string or a
tuple — is classified scalar and dispatched as a single key in `get`, `set`
and `delete`, never as a batch; the closed classifier `classify` likewise
maps every hashable argument to the scalar shape. -/
theorem hashable_scalar_dispatch (d : Dictb) (v s : Scalar)
    (hseq : (Arg.scalar s).isSequence = true) :
    (∀ a : Arg, a.isHashable = true → classify a = Shape.scalarS) ∧
    classify (Arg.scalar s) = Shape.scalarS ∧
    getItem d (Arg.scalar s) =
      (match dlookup d s with
       | some w => Except.ok (GetResult.val w)
       | none => Except.error (PyErr.keyError (Arg.scalar s))) ∧
    setItem d (Arg.scalar s) v = Except.ok (dset d s v) ∧
    delItem d (Arg.scalar s) =
      (match dlookup d s with
       | some _ => Except.ok (derase d s)
       | none => Except.error (PyErr.keyError (Arg.scalar s))) := by
  refine ⟨?_, ?_, rfl, rfl, rfl⟩
  · intro a ha
    cases a <;> simp_all [classify, Arg.isHashable]
  · simp [classify, Arg.isHashable]

/-- C6 witness: the string `"ab"` is both hashable and a sequence; it is
classified scalar, and getting it from `dictb(a=1, b=2, c=3)` performs a
single-key lookup (which fails, even though every character of `"ab"` is a
key) rather than batching over its characters. -/
theorem hashable_scalar_dispatch_witness :
    classify (Arg.scalar (Scalar.atom (Atom.str "ab"))) = Shape.scalarS ∧
    getItem dEx (Arg.scalar (Scalar.atom (Atom.str "ab"))) =
      Except.error (PyErr.keyError (Arg.scalar (Scalar.atom (Atom.str "ab")))) := by
  have h := hashable_scalar_dispatch dEx pyNone
    (Scalar.atom (Atom.str "ab")) (by decide)
  refine ⟨h.2.1, ?_⟩
  rw [h.2.2.1]
  rfl

/-- C7: with a plain set (or any iterable of keys) on the left and the dictb
on the right, the reflected operators return a plain key set — a `Finset`,
not a dictb — equal to the corresponding mathematical set operation on
`set(other)` and the key view. -/
theorem reflected_plain_keyset (d : Dictb) (other : Arg)
    (hit : other.isIterable = true) :
    ∃ s1 s2 s3,
      randOp d other = Except.ok s1 ∧ rorOp d other = Except.ok s2 ∧
      rxorOp d other = Except.ok s3 ∧
      (∀ k, k ∈ s1 ↔ k ∈ setOfArg other ∧ k ∈ keyFinset d) ∧
      (∀ k, k ∈ s2 ↔ k ∈ setOfArg other ∨ k ∈ keyFinset d) ∧
      (∀ k, k ∈ s3 ↔ (k ∈ setOfArg other ∧ k ∉ keyFinset d) ∨
        (k ∈ keyFinset d ∧ k ∉ setOfArg other)) := by
  obtain ⟨os, hos, hosf, hnd⟩ := setList_of_isIterable other hit
  refine ⟨os.toFinset ∩ keyFinset d, os.toFinset ∪ keyFinset d,
    (os.toFinset \ keyFinset d) ∪ (keyFinset d \ os.toFinset),
    by simp [randOp, hos], by simp [rorOp, hos], by simp [rxorOp, hos],
    ?_, ?_, ?_⟩ <;> intro k <;> rw [← hosf] <;>
    simp [Finset.mem_inter, Finset.mem_union, Finset.mem_sdiff]

/-- C7 witness: `{'b','c','d'} & dictb(a=1, b=2, c=3)` and the other two
reflected forms all return plain key sets. -/
theorem reflected_plain_keyset_witness :
    ∃ s1 s2 s3, randOp dEx (Arg.pyset [sB, sC, sD]) = Except.ok s1 ∧
      rorOp dEx (Arg.pyset [sB, sC, sD]) = Except.ok s2 ∧
      rxorOp dEx (Arg.pyset [sB, sC, sD]) = Except.ok s3 := by
  obtain ⟨s1, s2, s3, h1, h2, h3, _⟩ :=
    reflected_plain_keyset dEx (Arg.pyset [sB, sC, sD]) rfl
  exact ⟨s1, s2, s3, h1, h2, h3⟩

/-- C8 counterexample: `m.set(key, v)` with a key that is neither hashable
nor iterable raises plain `KeyError` — the very error kind of KeyNotFound —
so no error of a kind distinct from KeyNotFound is ever produced on this
path; the source defines no separate InvalidKey kind. -/
theorem setitem_invalid_kind_cx :
    setItem [] Arg.obj pyNone = Except.error (PyErr.keyError Arg.obj) ∧
    ¬ ∃ e, setItem [] Arg.obj pyNone = Except.error e ∧
      e.isKeyError = false := by
  refine ⟨rfl, ?_⟩
  rintro ⟨e, he, hk⟩
  rw [show setItem [] Arg.obj pyNone = Except.error (PyErr.keyError Arg.obj)
    from rfl] at he
  injection he with h
  subst h
  simp [PyErr.isKeyError] at hk

/-- C8 as amended: a set call whose key cannot be classified (non-hashable,
non-iterable) fails, but with `KeyError` — the same error kind used for
KeyNotFound — not with a distinct InvalidKey kind. -/
theorem setitem_invalid_keyerror (d : Dictb) (v : Scalar) :
    setItem d Arg.obj v = Except.error (PyErr.keyError Arg.obj) ∧
    (PyErr.keyError Arg.obj).isKeyError = true :=
  ⟨rfl, rfl⟩

/-- C9 counterexample: `m.get(key)` on a non-hashable, non-iterable object
fails with `TypeError`, raised by the `set(key)` conversion, not with the
KeyNotFound kind the claim states. -/
theorem getitem_obj_typeerror_cx :
    getItem [] Arg.obj = Except.error PyErr.typeError ∧
    ¬ ∃ e, getItem [] Arg.obj = Except.error e ∧ e.isKeyError = true := by
  refine ⟨rfl, ?_⟩
  rintro ⟨e, he, hk⟩
  rw [show getItem [] Arg.obj = Except.error PyErr.typeError from rfl] at he
  injection he with h
  subst h
  simp [PyErr.isKeyError] at hk

/-- C9 as amended: a get argument that is none of scalar, sequence and set
fails — with `KeyError` when it is still iterable (e.g. a mapping, which
falls through both isinstance branches whatever the subset test said), but
with `TypeError` when it is not iterable at all, since `set(key)` raises
before the `KeyError` line is reached. -/
theorem getitem_unclassified_shapes (d : Dictb) (ps : List (Scalar × Scalar)) :
    getItem d (Arg.pydict ps) = Except.error (PyErr.keyError (Arg.pydict ps)) ∧
    getItem d Arg.obj = Except.error PyErr.typeError :=
  ⟨rfl, rfl⟩

/-- C10: setting a list of distinct keys to a string value pairs keys with
the characters of the string positionally (a string is itself classified as
a sequence value), truncating to the shorter side: key `i` receives
character `i`, and keys beyond the last character keep their old binding —
the whole string is not assigned uniformly to every key. -/
theorem setitem_string_value_zip (d : Dictb) (ks : List Scalar) (s : String)
    (hnd : ks.Nodup) :
    setItem d (Arg.pylist ks) (Scalar.atom (Atom.str s)) =
      Except.ok (updMany d (ks.zip (strChars s))) ∧
    (∀ i (h1 : i < ks.length) (h2 : i < (strChars s).length),
      dlookup (updMany d (ks.zip (strChars s))) (ks.get ⟨i, h1⟩) =
        some ((strChars s).get ⟨i, h2⟩)) ∧
    (∀ i (h1 : i < ks.length), (strChars s).length ≤ i →
      dlookup (updMany d (ks.zip (strChars s))) (ks.get ⟨i, h1⟩) =
        dlookup d (ks.get ⟨i, h1⟩)) :=
  ⟨rfl, fun i h1 h2 => dlookup_updMany_zip d ks (strChars s) hnd i h1 h2,
    fun i h1 hb => dlookup_updMany_zip_beyond d ks (strChars s) hnd i h1 hb⟩

/-- C10 witness: setting `['a', 'b']` to the string value `"xyz"` assigns
`'x'` to `'a'` and `'y'` to `'b'` (`'z'` is ignored), not `"xyz"` to both. -/
theorem setitem_string_value_zip_witness :
    setItem dEx (Arg.pylist [sA, sB]) (Scalar.atom (Atom.str "xyz")) =
      Except.ok (updMany dEx ([sA, sB].zip (strChars "xyz"))) :=
  (setitem_string_value_zip dEx [sA, sB] "xyz" (by decide)).1
